import Mathlib

/-!
Shallow embedding of the async-rust stock-indicator pipeline
(src/signal.rs, src/buffer.rs, src/main.rs) and proofs of the spec claims.

Conventions of the embedding:
* Rust `f64` values are idealized as rationals `ℚ`; the concrete constants
  `f64::MIN` and `f64::MAX` are embedded as their exact rational values
  `-(2^1024 - 2^971)` and `2^1024 - 2^971`.  Where a property of the code
  depends on all samples being finite doubles, the theorem carries the
  hypothesis that the samples lie in the interval `[f64MIN, f64MAX]`.
* `Option` embeds Rust `Option`; a Rust panic (`unwrap` on `None`, an
  out-of-range `Utc.timestamp` conversion, a failed registry lookup) is
  embedded as `Except.error ()`, so "the handler never panics" becomes
  "the embedded handler never returns `Except.error`".
* Async and actor plumbing carries no data dependency between the values a
  handler consumes and produces, so each handler is embedded as the pure
  function from its input message (plus the outcome of any external call)
  to the message(s) it publishes.
-/

/-! ## Signal library (src/signal.rs) -/

/-- `PriceDifference::calculate` (src/signal.rs:39-50): on a non-empty series
returns `(last - first, (last - first) / (if first == 0 then 1 else first))`,
on the empty series returns `None`.  The source's `series.first().unwrap()` and
`series.last().unwrap()` are guarded by the emptiness check, which the
dependent `if` makes explicit. -/
def PriceDifference.calculate (series : List ℚ) : Option (ℚ × ℚ) :=
  if h : series = [] then
    none
  else
    let first := series.head h
    let last := series.getLast h
    let abs_diff := last - first
    let first' := if first = 0 then 1 else first
    some (abs_diff, abs_diff / first')

/-- Rust `slice::windows(n)`: all contiguous sub-slices of length `n`,
left to right; empty when `n > len` (Rust panics on `n = 0`, which the caller
`WindowedSMA::calculate` rules out by requiring `window_size > 1`). -/
def slice.windows (n : ℕ) (l : List ℚ) : List (List ℚ) :=
  (List.range (l.length + 1 - n)).map (fun i => (l.drop i).take n)

/-- `WindowedSMA::calculate` (src/signal.rs:64-75): when the series is
non-empty and `window_size > 1`, maps every window of length `window_size`
to its arithmetic mean; otherwise returns `None`. -/
def WindowedSMA.calculate (window_size : ℕ) (series : List ℚ) : Option (List ℚ) :=
  if series ≠ [] ∧ window_size > 1 then
    some ((slice.windows window_size series).map
      (fun w => w.sum / (w.length : ℚ)))
  else
    none

/-- Exact rational value of `f64::MIN`, the least finite double. -/
def f64MIN : ℚ := -(2 ^ 1024 - 2 ^ 971)

/-- Exact rational value of `f64::MAX`, the greatest finite double. -/
def f64MAX : ℚ := 2 ^ 1024 - 2 ^ 971

/-- `MaxPrice::calculate` (src/signal.rs:87-93): `None` on the empty series,
otherwise the fold of `max` over the series starting from `f64::MIN`. -/
def MaxPrice.calculate (series : List ℚ) : Option ℚ :=
  if series = [] then
    none
  else
    some (series.foldl (fun acc q => max acc q) f64MIN)

/-- `MinPrice::calculate` (src/signal.rs:105-111): `None` on the empty series,
otherwise the fold of `min` over the series starting from `f64::MAX`. -/
def MinPrice.calculate (series : List ℚ) : Option ℚ :=
  if series = [] then
    none
  else
    some (series.foldl (fun acc q => min acc q) f64MAX)

/-! ## Claim C5: PriceDifference -/

/-- C5: `PriceDifference.calculate` returns `None` iff the series is empty;
on every non-empty series it returns
`(last - first, (last - first) / d)` with `d = 1` when `first = 0` and
`d = first` otherwise; a single-element series yields `(0, 0)`. -/
theorem priceDifference_spec (S : List ℚ) :
    (PriceDifference.calculate S = none ↔ S = []) ∧
    (∀ h : S ≠ [],
      PriceDifference.calculate S =
        some (S.getLast h - S.head h,
          (S.getLast h - S.head h) /
            (if S.head h = 0 then 1 else S.head h))) ∧
    (∀ x : ℚ, PriceDifference.calculate [x] = some (0, 0)) := by
  refine ⟨?_, ?_, ?_⟩
  · unfold PriceDifference.calculate
    split
    · simp_all
    · simp_all
  · intro h
    unfold PriceDifference.calculate
    simp [h]
  · intro x
    unfold PriceDifference.calculate
    simp

/-- Witness for C5 at the concrete series `[2, 3, 5, 6, 1, 2, 10]` and at the
singleton `[7]`. -/
theorem priceDifference_spec_witness :
    PriceDifference.calculate [2, 3, 5, 6, 1, 2, 10] = some (8, 4) ∧
    PriceDifference.calculate [7] = some (0, 0) := by
  constructor
  · have h := (priceDifference_spec [2, 3, 5, 6, 1, 2, 10]).2.1 (by simp)
    norm_num at h
    convert h using 2
  · exact (priceDifference_spec [7]).2.2 7

/-! ## Claim C4: WindowedSMA -/

/-- Helper: each window produced by `slice.windows` inside the guarded branch
has length exactly `n`. -/
theorem slice.windows_window_length (n : ℕ) (l : List ℚ) (i : ℕ)
    (hi : i < l.length + 1 - n) : ((l.drop i).take n).length = n := by
  simp only [List.length_take, List.length_drop]
  omega

/-- C4: `WindowedSMA.calculate w S` is `None` exactly when `S` is empty or
`w ≤ 1`; any returned sequence has length `S.length + 1 - w`
(that is, `max 0 (len S - w + 1)` in truncated subtraction) and its `i`-th
entry is the arithmetic mean of the `i`-th contiguous window of length `w`;
for `w > len S` (with `S` non-empty, `w ≥ 2`) the result is the valid empty
sequence `some []`, distinct from `none`. -/
theorem windowedSMA_spec (w : ℕ) (S : List ℚ) :
    (WindowedSMA.calculate w S = none ↔ S = [] ∨ w ≤ 1) ∧
    (∀ out : List ℚ, WindowedSMA.calculate w S = some out →
      out.length = S.length + 1 - w ∧
      ∀ i (hi : i < out.length), out[i] = ((S.drop i).take w).sum / (w : ℚ)) ∧
    (S ≠ [] → 2 ≤ w → S.length < w → WindowedSMA.calculate w S = some []) := by
  refine ⟨?_, ?_, ?_⟩
  · by_cases hS : S = []
    · simp [WindowedSMA.calculate, hS]
    · by_cases hw : w ≤ 1
      · have h1 : ¬ w > 1 := by omega
        simp [WindowedSMA.calculate, hS, hw, h1]
      · have h1 : w > 1 := by omega
        simp [WindowedSMA.calculate, hS, hw, h1]
  · intro out hout
    unfold WindowedSMA.calculate at hout
    split at hout
    · have hout' : (slice.windows w S).map (fun v => v.sum / (v.length : ℚ)) = out :=
        Option.some.inj hout
      subst hout'
      have hlen : ((slice.windows w S).map
          (fun v => v.sum / (v.length : ℚ))).length = S.length + 1 - w := by
        simp [slice.windows]
      refine ⟨hlen, ?_⟩
      intro i hi
      have hi' : i < S.length + 1 - w := hlen ▸ hi
      simp only [slice.windows, List.getElem_map, List.getElem_range]
      rw [slice.windows_window_length w S i hi']
    · exact absurd hout (by simp)
  · intro hS hw hlen
    have h0 : S.length + 1 - w = 0 := by omega
    have h1 : w > 1 := by omega
    simp [WindowedSMA.calculate, slice.windows, hS, h1, h0]

/-- Witness for C4: `WindowedSMA(10)` on the 4-element series is the valid
empty sequence, and `WindowedSMA(3)` on `[1,2,3,4]` yields `4 + 1 - 3 = 2`
window means. -/
theorem windowedSMA_spec_witness :
    WindowedSMA.calculate 10 [1, 2, 3, 4] = some [] ∧
    [(2 : ℚ), 3].length = ([1, 2, 3, 4] : List ℚ).length + 1 - 3 := by
  constructor
  · exact (windowedSMA_spec 10 [1, 2, 3, 4]).2.2 (by simp) (by norm_num) (by simp)
  · exact ((windowedSMA_spec 3 [1, 2, 3, 4]).2.1 [2, 3]
      (by simp [WindowedSMA.calculate, slice.windows, List.range_succ]; norm_num)).1

/-! ## Claim C6: MaxPrice / MinPrice -/

/-- The fold accumulator of `MaxPrice` only grows: the initial value bounds
the result from below. -/
theorem le_foldl_max (l : List ℚ) : ∀ a : ℚ, a ≤ l.foldl (fun acc q => max acc q) a := by
  induction l with
  | nil => simp
  | cons b t ih =>
    intro a
    simpa using le_trans (le_max_left a b) (ih (max a b))

/-- Every element of the list is bounded by the `max`-fold. -/
theorem mem_le_foldl_max (l : List ℚ) :
    ∀ (a : ℚ), ∀ x ∈ l, x ≤ l.foldl (fun acc q => max acc q) a := by
  induction l with
  | nil => simp
  | cons b t ih =>
    intro a x hx
    simp only [List.foldl_cons]
    rcases List.mem_cons.mp hx with rfl | hx
    · exact le_trans (le_max_right a x) (le_foldl_max t (max a x))
    · exact ih (max a b) x hx

/-- The `max`-fold returns either the initial accumulator or a list element. -/
theorem foldl_max_mem (l : List ℚ) :
    ∀ a : ℚ, l.foldl (fun acc q => max acc q) a = a ∨
      l.foldl (fun acc q => max acc q) a ∈ l := by
  induction l with
  | nil => simp
  | cons b t ih =>
    intro a
    simp only [List.foldl_cons]
    rcases ih (max a b) with h | h
    · rcases le_total a b with hab | hab
      · right
        rw [h, max_eq_right hab]
        exact List.mem_cons_self b t
      · left
        rw [h, max_eq_left hab]
    · right
      exact List.mem_cons_of_mem b h

/-- The fold accumulator of `MinPrice` only shrinks. -/
theorem foldl_min_le (l : List ℚ) : ∀ a : ℚ, l.foldl (fun acc q => min acc q) a ≤ a := by
  induction l with
  | nil => simp
  | cons b t ih =>
    intro a
    simpa using le_trans (ih (min a b)) (min_le_left a b)

/-- The `min`-fold bounds every element of the list from below. -/
theorem foldl_min_le_mem (l : List ℚ) :
    ∀ (a : ℚ), ∀ x ∈ l, l.foldl (fun acc q => min acc q) a ≤ x := by
  induction l with
  | nil => simp
  | cons b t ih =>
    intro a x hx
    simp only [List.foldl_cons]
    rcases List.mem_cons.mp hx with rfl | hx
    · exact le_trans (foldl_min_le t (min a x)) (min_le_right a x)
    · exact ih (min a b) x hx

/-- The `min`-fold returns either the initial accumulator or a list element. -/
theorem foldl_min_mem (l : List ℚ) :
    ∀ a : ℚ, l.foldl (fun acc q => min acc q) a = a ∨
      l.foldl (fun acc q => min acc q) a ∈ l := by
  induction l with
  | nil => simp
  | cons b t ih =>
    intro a
    simp only [List.foldl_cons]
    rcases ih (min a b) with h | h
    · rcases le_total a b with hab | hab
      · left
        rw [h, min_eq_left hab]
      · right
        rw [h, min_eq_right hab]
        exact List.mem_cons_self b t
    · right
      exact List.mem_cons_of_mem b h

/-- C6: `MaxPrice.calculate` and `MinPrice.calculate` return `None` exactly on
the empty series; on a non-empty series whose samples are all finite doubles
(embedded as `f64MIN ≤ x ≤ f64MAX`), the returned value is an element of the
series, no element exceeds the returned maximum, and no element is below the
returned minimum. -/
theorem maxMinPrice_spec (S : List ℚ)
    (hfin : ∀ x ∈ S, f64MIN ≤ x ∧ x ≤ f64MAX) :
    (MaxPrice.calculate S = none ↔ S = []) ∧
    (MinPrice.calculate S = none ↔ S = []) ∧
    (∀ h : S ≠ [], ∃ m, MaxPrice.calculate S = some m ∧ m ∈ S ∧
      ∀ x ∈ S, x ≤ m) ∧
    (∀ h : S ≠ [], ∃ m, MinPrice.calculate S = some m ∧ m ∈ S ∧
      ∀ x ∈ S, m ≤ x) := by
  refine ⟨?_, ?_, ?_, ?_⟩
  · unfold MaxPrice.calculate
    split <;> simp_all
  · unfold MinPrice.calculate
    split <;> simp_all
  · intro h
    refine ⟨S.foldl (fun acc q => max acc q) f64MIN, ?_, ?_, ?_⟩
    · unfold MaxPrice.calculate
      simp [h]
    · rcases foldl_max_mem S f64MIN with hm | hm
      · have hx0 : S.head h ∈ S := List.head_mem h
        have h1 : S.head h ≤ f64MIN := hm ▸ mem_le_foldl_max S f64MIN _ hx0
        have h2 : f64MIN ≤ S.head h := (hfin _ hx0).1
        have : S.head h = f64MIN := le_antisymm h1 h2
        rw [hm, ← this]
        exact hx0
      · exact hm
    · exact mem_le_foldl_max S f64MIN
  · intro h
    refine ⟨S.foldl (fun acc q => min acc q) f64MAX, ?_, ?_, ?_⟩
    · unfold MinPrice.calculate
      simp [h]
    · rcases foldl_min_mem S f64MAX with hm | hm
      · have hx0 : S.head h ∈ S := List.head_mem h
        have h1 : f64MAX ≤ S.head h := hm ▸ foldl_min_le_mem S f64MAX _ hx0
        have h2 : S.head h ≤ f64MAX := (hfin _ hx0).2
        have : S.head h = f64MAX := le_antisymm h2 h1
        rw [hm, ← this]
        exact hx0
      · exact hm
    · exact foldl_min_le_mem S f64MAX

/-- Witness for C6 on the finite-double series `[3, 1, 2]`. -/
theorem maxMinPrice_spec_witness :
    (∃ m, MaxPrice.calculate [3, 1, 2] = some m ∧ m ∈ ([3, 1, 2] : List ℚ) ∧
      ∀ x ∈ ([3, 1, 2] : List ℚ), x ≤ m) ∧
    (∃ m, MinPrice.calculate [3, 1, 2] = some m ∧ m ∈ ([3, 1, 2] : List ℚ) ∧
      ∀ x ∈ ([3, 1, 2] : List ℚ), m ≤ x) := by
  have hfin : ∀ x ∈ ([3, 1, 2] : List ℚ), f64MIN ≤ x ∧ x ≤ f64MAX := by
    intro x hx
    fin_cases hx <;> constructor <;> norm_num [f64MIN, f64MAX]
  exact ⟨(maxMinPrice_spec _ hfin).2.2.1 (by simp),
         (maxMinPrice_spec _ hfin).2.2.2 (by simp)⟩

/-! ## Ring buffer (src/buffer.rs)

`BufferSink` holds a `VecDeque<PerformanceIndicators>`; the deque state is
embedded as a `List` (front = head of the deque).  `VecDeque` is generic in
Rust, so the embedding is generic in the record type `α`;
`main.rs` instantiates it with `PerformanceIndicators`. -/

/-- One externally triggered operation on the `BufferSink` actor: either a
`PerformanceIndicators` message (handled by `push_back`, src/buffer.rs:17-22)
or a `BufferDataRequest { n }` (handled by the drain loop,
src/buffer.rs:24-42). -/
inductive BufferOp (α : Type) where
  | push (r : α)
  | drain (n : ℕ)

/-- `Handler<PerformanceIndicators> for BufferSink` (src/buffer.rs:17-22):
`self.data_sink.push_back(msg)`. -/
def BufferSink.push {α : Type} (s : List α) (r : α) : List α :=
  s ++ [r]

/-- The `for i in 0..max_amount { if let Some(v) = pop_front { push } else
{ break } }` loop of src/buffer.rs:33-39, with the iteration count as fuel.
Returns the drained records (in pop order) and the remaining deque. -/
def drainLoop {α : Type} : ℕ → List α → List α × List α
  | 0, s => ([], s)
  | _ + 1, [] => ([], [])
  | k + 1, v :: rest =>
    let p := drainLoop k rest
    (v :: p.1, p.2)

/-- `Handler<BufferDataRequest> for BufferSink` (src/buffer.rs:24-42):
`max_amount = min(msg.n, self.data_sink.len())`, then the pop-front loop. -/
def BufferSink.drain {α : Type} (n : ℕ) (s : List α) : List α × List α :=
  drainLoop (min n s.length) s

/-- Run a sequence of buffer operations from a deque state; returns the final
deque state and the concatenation, in call order, of everything the drain
calls returned. -/
def BufferSink.runOps {α : Type} : List (BufferOp α) → List α → List α × List α
  | [], s => (s, [])
  | BufferOp.push r :: ops, s => BufferSink.runOps ops (BufferSink.push s r)
  | BufferOp.drain n :: ops, s =>
    let d := BufferSink.drain n s
    let rest := BufferSink.runOps ops d.2
    (rest.1, d.1 ++ rest.2)

/-- The records pushed by a sequence of operations, in push order. -/
def BufferOp.pushed {α : Type} : List (BufferOp α) → List α
  | [] => []
  | BufferOp.push r :: ops => r :: BufferOp.pushed ops
  | BufferOp.drain _ :: ops => BufferOp.pushed ops

/-- The drain loop with fuel `k` pops exactly the first `k` records. -/
theorem drainLoop_eq {α : Type} (k : ℕ) (s : List α) :
    drainLoop k s = (s.take k, s.drop k) := by
  induction k generalizing s with
  | zero => simp [drainLoop]
  | succ k ih =>
    cases s with
    | nil => simp [drainLoop]
    | cons v rest => simp [drainLoop, ih]

/-- What `BufferSink.drain` returns and leaves behind, in closed form. -/
theorem BufferSink.drain_eq {α : Type} (n : ℕ) (s : List α) :
    BufferSink.drain n s = (s.take (min n s.length), s.drop (min n s.length)) :=
  drainLoop_eq (min n s.length) s

/-- Conservation law for arbitrary runs: everything ever drained followed by
what is still resident is the initial content followed by every pushed record,
in order. -/
theorem BufferSink.runOps_conservation {α : Type} (ops : List (BufferOp α)) :
    ∀ s : List α, (BufferSink.runOps ops s).2 ++ (BufferSink.runOps ops s).1 =
      s ++ BufferOp.pushed ops := by
  induction ops with
  | nil => intro s; simp [BufferSink.runOps, BufferOp.pushed]
  | cons op ops ih =>
    intro s
    cases op with
    | push r =>
      simp only [BufferSink.runOps, BufferOp.pushed]
      rw [ih (BufferSink.push s r)]
      simp [BufferSink.push]
    | drain n =>
      simp only [BufferSink.runOps, BufferOp.pushed]
      rw [List.append_assoc, ih (BufferSink.drain n s).2, BufferSink.drain_eq]
      simp [← List.append_assoc, List.take_append_drop, BufferSink.drain_eq]

/-- `n` consecutive pushes from state `s` leave `s` followed by the `n`
pushed records resident. -/
theorem BufferSink.runOps_replicate_push {α : Type} (n : ℕ) (r : α) :
    ∀ s : List α,
      (BufferSink.runOps (List.replicate n (BufferOp.push r)) s).1 =
        s ++ List.replicate n r := by
  induction n with
  | zero => intro s; simp [BufferSink.runOps]
  | succ k ih =>
    intro s
    rw [List.replicate_succ]
    simp only [BufferSink.runOps]
    rw [ih (BufferSink.push s r)]
    simp [BufferSink.push, List.replicate_succ]

/-- `let BUFFER_SIZE = 10000` (src/main.rs:240), passed to
`VecDeque::with_capacity` when the `BufferSink` actor is created
(src/main.rs:258-261). -/
def BUFFER_SIZE : ℕ := 10000

/-! ## Claim C1: buffer boundedness (refuted; capacity is only an allocation
hint) -/

/-- Counterexample to C1: `VecDeque::with_capacity(10000)` only preallocates;
`push_back` never checks the capacity, so 10001 pushes from the empty buffer
leave 10001 resident records, exceeding the claimed bound. -/
theorem ringBuffer_bounded_counterexample :
    BUFFER_SIZE <
      ((BufferSink.runOps
        (List.replicate 10001 (BufferOp.push (0 : ℕ))) []).1).length := by
  rw [BufferSink.runOps_replicate_push 10001 (0 : ℕ) []]
  simp only [List.nil_append, List.length_replicate, BUFFER_SIZE]
  norm_num

/-- C1 (amended): the value 10000 passed at construction is only an initial
allocation; `push` neither evicts nor rejects, so the resident count is
unbounded: for every `n`, a sequence of `n` pushes from the empty buffer
leaves exactly `n` records resident. -/
theorem ringBuffer_capacity_not_enforced (α : Type) (n : ℕ) (r : α) :
    ((BufferSink.runOps (List.replicate n (BufferOp.push r)) []).1).length = n := by
  rw [BufferSink.runOps_replicate_push n r []]
  simp

/-! ## Claim C2: no record duplicated or lost, FIFO -/

/-- C2: over any sequence of push and drain operations from the empty buffer,
the records returned across all drains followed by the resident records equal
precisely the pushed records in push order (so nothing is duplicated or lost
and every drain returns records in push order); in particular the counts add
up. -/
theorem ringBuffer_conservation_fifo (α : Type) (ops : List (BufferOp α)) :
    (BufferSink.runOps ops []).2 ++ (BufferSink.runOps ops []).1 =
      BufferOp.pushed ops ∧
    ((BufferSink.runOps ops []).2).length + ((BufferSink.runOps ops []).1).length =
      (BufferOp.pushed ops).length := by
  have h := BufferSink.runOps_conservation ops []
  simp only [List.nil_append] at h
  refine ⟨h, ?_⟩
  rw [← h]
  simp

/-! ## Claim C3: drain semantics -/

/-- C3: for every buffer state and every `n`, `drain n` returns exactly
`min n length` records from the head oldest-first and leaves the rest in
order (their concatenation restores the original state); it returns the empty
sequence whenever the buffer is empty or `n = 0`; and on `[r1, r2, r3]` three
successive `drain 2` calls return `[r1, r2]`, then `[r3]`, then `[]`. -/
theorem ringBuffer_drain_spec :
    (∀ (α : Type) (s : List α) (n : ℕ),
      (BufferSink.drain n s).1 = s.take (min n s.length) ∧
      (BufferSink.drain n s).2 = s.drop (min n s.length) ∧
      (BufferSink.drain n s).1 ++ (BufferSink.drain n s).2 = s ∧
      (s = [] ∨ n = 0 → (BufferSink.drain n s).1 = [])) ∧
    (BufferSink.drain 2 [1, 2, 3] = ([1, 2], [3]) ∧
     BufferSink.drain 2 [(3 : ℕ)] = ([3], []) ∧
     BufferSink.drain 2 ([] : List ℕ) = ([], [])) := by
  constructor
  · intro α s n
    refine ⟨?_, ?_, ?_, ?_⟩
    · rw [BufferSink.drain_eq]
    · rw [BufferSink.drain_eq]
    · rw [BufferSink.drain_eq]
      simp [List.take_append_drop]
    · rintro (rfl | rfl) <;> simp [BufferSink.drain_eq]
  · refine ⟨?_, ?_, ?_⟩ <;> decide

/-- Witness for C3: the `s = [] ∨ n = 0` hypothesis discharged at the empty
buffer and at `n = 0`. -/
theorem ringBuffer_drain_spec_witness :
    (BufferSink.drain 5 ([] : List ℕ)).1 = [] ∧
    (BufferSink.drain 0 [(7 : ℕ), 8]).1 = [] :=
  ⟨(ringBuffer_drain_spec.1 ℕ [] 5).2.2.2 (Or.inl rfl),
   (ringBuffer_drain_spec.1 ℕ [7, 8] 0).2.2.2 (Or.inr rfl)⟩

/-! ## Pipeline data model (src/main.rs) -/

/-- The fields of `yahoo::Quote` (an external-crate type) that the pipeline
reads: the sample's unix timestamp and its closing price.  The remaining
fields of the external type are never consulted by src/ and are omitted. -/
structure Quote where
  timestamp : ℕ
  close : ℚ
deriving DecidableEq

/-- The `Quotes` message (src/main.rs:40-45): a symbol together with the
fetched price samples. -/
structure Quotes where
  symbol : String
  quotes : List Quote

/-- The `QuoteRequest` message (src/main.rs:47-53); `from`/`to` timestamps are
embedded as integers (`from` is a Lean keyword, hence the `Date` suffix). -/
structure QuoteRequest where
  symbol : String
  fromDate : ℤ
  toDate : ℤ

/-- `PerformanceIndicators` (src/main.rs:58-68). -/
structure PerformanceIndicators where
  symbol : String
  timestamp : ℕ
  price : ℚ
  pct_change : ℚ
  period_min : ℚ
  period_max : ℚ
  last_sma : ℚ
deriving DecidableEq

/-! ## Compute stage: `Handler<Quotes> for StockDataProcessor`
(src/main.rs:125-175) -/

/-- `data.sort_by_cached_key(|k| k.timestamp)` (src/main.rs:130): a stable
ascending sort by timestamp, embedded as stable insertion sort over the
timestamp order. -/
def sortByTimestamp (quotes : List Quote) : List Quote :=
  List.insertionSort (fun a b => a.timestamp ≤ b.timestamp) quotes

/-- The compute-stage handler, modelling the data flow and the three
`unwrap`s on `data.last()`, `closes.last()` and `sma.calculate(..)`.
`Except.error ()` marks a panicking `unwrap`; `Except.ok none` is the
empty-input branch that only logs ("Got nothing"); `Except.ok (some r)`
publishes the assembled record `r`.  A publish failure is only logged
(src/main.rs:157-159), so the emitted value is the returned record.  Two
further panic sources are idealized away HERE and modeled in
`StockDataProcessor.handleFull` below: the `Utc.timestamp(ts as i64, 0)`
conversion (src/main.rs:132), which is treated here as the identity on the
second count but panics in chrono when the cast second count is out of
range, and the `Broker::from_registry().await.unwrap()` of src/main.rs:157. -/
def StockDataProcessor.handle (msg : Quotes) : Except Unit (Option PerformanceIndicators) :=
  if msg.quotes = [] then
    Except.ok none
  else
    let data := sortByTimestamp msg.quotes
    match data.getLast? with
    | none => Except.error ()
    | some lastQuote =>
      let last_date := lastQuote.timestamp
      let closes := data.map Quote.close
      let period_max := (MaxPrice.calculate closes).getD 0
      let period_min := (MinPrice.calculate closes).getD 0
      match closes.getLast? with
      | none => Except.error ()
      | some last_price =>
        let pct_change := ((PriceDifference.calculate closes).getD (0, 0)).2
        match WindowedSMA.calculate 30 closes with
        | none => Except.error ()
        | some sma =>
          Except.ok (some {
            symbol := msg.symbol
            timestamp := last_date
            price := last_price
            pct_change := pct_change
            period_min := period_min
            period_max := period_max
            last_sma := sma.getLast?.getD 0 })

/-- Sorting preserves non-emptiness. -/
theorem sortByTimestamp_ne_nil {l : List Quote} (h : l ≠ []) :
    sortByTimestamp l ≠ [] := by
  intro h0
  apply h
  have hp := List.perm_insertionSort
    (fun a b => a.timestamp ≤ b.timestamp) l
  rw [sortByTimestamp] at h0
  rw [h0] at hp
  exact hp.symm.eq_nil

/-- Closed form of the compute-stage handler on non-empty input. -/
theorem StockDataProcessor.handle_eq (q : Quotes) (hne : q.quotes ≠ []) :
    StockDataProcessor.handle q =
      Except.ok (some {
        symbol := q.symbol
        timestamp :=
          ((sortByTimestamp q.quotes).getLast (sortByTimestamp_ne_nil hne)).timestamp
        price := ((sortByTimestamp q.quotes).map Quote.close).getLast
          (by simpa using sortByTimestamp_ne_nil hne)
        pct_change :=
          ((PriceDifference.calculate
            ((sortByTimestamp q.quotes).map Quote.close)).getD (0, 0)).2
        period_min :=
          (MinPrice.calculate ((sortByTimestamp q.quotes).map Quote.close)).getD 0
        period_max :=
          (MaxPrice.calculate ((sortByTimestamp q.quotes).map Quote.close)).getD 0
        last_sma :=
          (((WindowedSMA.calculate 30
            ((sortByTimestamp q.quotes).map Quote.close)).getD []).getLast?).getD 0 }) := by
  have hdata : sortByTimestamp q.quotes ≠ [] := sortByTimestamp_ne_nil hne
  have hcloses : (sortByTimestamp q.quotes).map Quote.close ≠ [] := by
    simpa using hdata
  have hlast : (sortByTimestamp q.quotes).getLast? =
      some ((sortByTimestamp q.quotes).getLast hdata) :=
    List.getLast?_eq_getLast_of_ne_nil hdata
  have hlastclose : ((sortByTimestamp q.quotes).map Quote.close).getLast? =
      some (((sortByTimestamp q.quotes).map Quote.close).getLast hcloses) :=
    List.getLast?_eq_getLast_of_ne_nil hcloses
  have hsma : WindowedSMA.calculate 30 ((sortByTimestamp q.quotes).map Quote.close) =
      some ((slice.windows 30 ((sortByTimestamp q.quotes).map Quote.close)).map
        (fun v => v.sum / (v.length : ℚ))) := by
    unfold WindowedSMA.calculate
    rw [if_pos ⟨hcloses, by norm_num⟩]
  unfold StockDataProcessor.handle
  rw [if_neg hne]
  simp only [hlast, hlastclose, hsma, Option.getD_some]

/-! ## Claim C7: compute-stage emission -/

/-- C7: for every non-empty `Quotes` message the compute stage emits exactly
one record whose period-end is the timestamp of the last sample after the
ascending sort, whose price is the last close, whose percent change is the
relative component of `PriceDifference` over the sorted closes, whose min/max
are `MinPrice`/`MaxPrice` over the closes, and whose moving average is the
last element of `WindowedSMA(30)` (or `0` when that sequence is empty); for an
empty message it emits nothing. -/
theorem processor_emission_spec (q : Quotes) :
    (q.quotes = [] → StockDataProcessor.handle q = Except.ok none) ∧
    (q.quotes ≠ [] →
      ∃ (r : PerformanceIndicators) (lastQuote : Quote) (ar : ℚ × ℚ)
        (sma : List ℚ),
        StockDataProcessor.handle q = Except.ok (some r) ∧
        (sortByTimestamp q.quotes).getLast? = some lastQuote ∧
        r.symbol = q.symbol ∧
        r.timestamp = lastQuote.timestamp ∧
        ((sortByTimestamp q.quotes).map Quote.close).getLast? = some r.price ∧
        PriceDifference.calculate ((sortByTimestamp q.quotes).map Quote.close) =
          some ar ∧
        r.pct_change = ar.2 ∧
        MinPrice.calculate ((sortByTimestamp q.quotes).map Quote.close) =
          some r.period_min ∧
        MaxPrice.calculate ((sortByTimestamp q.quotes).map Quote.close) =
          some r.period_max ∧
        WindowedSMA.calculate 30 ((sortByTimestamp q.quotes).map Quote.close) =
          some sma ∧
        r.last_sma = sma.getLast?.getD 0) := by
  constructor
  · intro h
    unfold StockDataProcessor.handle
    rw [if_pos h]
  · intro hne
    have hdata := sortByTimestamp_ne_nil hne
    have hcloses : (sortByTimestamp q.quotes).map Quote.close ≠ [] := by
      simpa using hdata
    have hpd : PriceDifference.calculate ((sortByTimestamp q.quotes).map Quote.close) =
        some (((sortByTimestamp q.quotes).map Quote.close).getLast hcloses -
            ((sortByTimestamp q.quotes).map Quote.close).head hcloses,
          (((sortByTimestamp q.quotes).map Quote.close).getLast hcloses -
            ((sortByTimestamp q.quotes).map Quote.close).head hcloses) /
            (if ((sortByTimestamp q.quotes).map Quote.close).head hcloses = 0 then 1
             else ((sortByTimestamp q.quotes).map Quote.close).head hcloses)) := by
      unfold PriceDifference.calculate
      rw [dif_neg hcloses]
    have hmin : MinPrice.calculate ((sortByTimestamp q.quotes).map Quote.close) =
        some (((sortByTimestamp q.quotes).map Quote.close).foldl
          (fun acc q => min acc q) f64MAX) := by
      unfold MinPrice.calculate
      rw [if_neg hcloses]
    have hmax : MaxPrice.calculate ((sortByTimestamp q.quotes).map Quote.close) =
        some (((sortByTimestamp q.quotes).map Quote.close).foldl
          (fun acc q => max acc q) f64MIN) := by
      unfold MaxPrice.calculate
      rw [if_neg hcloses]
    have hsma : WindowedSMA.calculate 30 ((sortByTimestamp q.quotes).map Quote.close) =
        some ((slice.windows 30 ((sortByTimestamp q.quotes).map Quote.close)).map
          (fun v => v.sum / (v.length : ℚ))) := by
      unfold WindowedSMA.calculate
      rw [if_pos ⟨hcloses, by norm_num⟩]
    refine ⟨_, (sortByTimestamp q.quotes).getLast hdata, _, _,
      StockDataProcessor.handle_eq q hne,
      List.getLast?_eq_getLast_of_ne_nil hdata, rfl, rfl,
      List.getLast?_eq_getLast_of_ne_nil hcloses, hpd, ?_, ?_, ?_, hsma, ?_⟩
    · simp [hpd]
    · simp [hmin]
    · simp [hmax]
    · simp [hsma]

/-- Witness for C7: the empty message `{"E", []}` emits nothing; the two-sample
message `{"T", [(t=2, close=5), (t=1, close=3)]}` emits one fully
characterized record. -/
theorem processor_emission_spec_witness :
    (StockDataProcessor.handle { symbol := "E", quotes := [] } = Except.ok none) ∧
    (∃ (r : PerformanceIndicators) (lastQuote : Quote) (ar : ℚ × ℚ)
      (sma : List ℚ),
      StockDataProcessor.handle
        { symbol := "T", quotes := [⟨2, 5⟩, ⟨1, 3⟩] } = Except.ok (some r) ∧
      (sortByTimestamp [⟨2, 5⟩, ⟨1, 3⟩]).getLast? = some lastQuote ∧
      r.symbol = "T" ∧
      r.timestamp = lastQuote.timestamp ∧
      ((sortByTimestamp [⟨2, 5⟩, ⟨1, 3⟩]).map Quote.close).getLast? = some r.price ∧
      PriceDifference.calculate ((sortByTimestamp [⟨2, 5⟩, ⟨1, 3⟩]).map Quote.close) =
        some ar ∧
      r.pct_change = ar.2 ∧
      MinPrice.calculate ((sortByTimestamp [⟨2, 5⟩, ⟨1, 3⟩]).map Quote.close) =
        some r.period_min ∧
      MaxPrice.calculate ((sortByTimestamp [⟨2, 5⟩, ⟨1, 3⟩]).map Quote.close) =
        some r.period_max ∧
      WindowedSMA.calculate 30 ((sortByTimestamp [⟨2, 5⟩, ⟨1, 3⟩]).map Quote.close) =
        some sma ∧
      r.last_sma = sma.getLast?.getD 0) :=
  ⟨(processor_emission_spec { symbol := "E", quotes := [] }).1 rfl,
   (processor_emission_spec { symbol := "T", quotes := [⟨2, 5⟩, ⟨1, 3⟩] }).2
     (by simp)⟩

/-! ## Claim C10: compute-stage safety (refuted; the handler has panic paths
beyond the three guarded `unwrap`s) -/

/-- Least second count representable by chrono 0.4 (external crate): the
timestamp of `-262144-01-01T00:00:00Z`. -/
def chronoMinTimestamp : ℤ := -8334632851200

/-- Greatest second count representable by chrono 0.4 (external crate): the
timestamp of `+262143-12-31T23:59:59Z`. -/
def chronoMaxTimestamp : ℤ := 8210298412799

/-- The wrapping `as i64` cast applied to the `u64` quote timestamp at
src/main.rs:132: values from `2^63` up wrap to negative. -/
def u64_as_i64 (ts : ℕ) : ℤ :=
  if ts < 2 ^ 63 then (ts : ℤ) else (ts : ℤ) - 2 ^ 64

/-- `Utc.timestamp(secs, 0)` of the external crate chrono 0.4
(`TimeZone::timestamp`): panics (`Except.error ()`) when `secs` lies outside
the representable range, otherwise returns the instant, embedded as its
second count. -/
def Utc.timestamp (secs : ℤ) : Except Unit ℤ :=
  if chronoMinTimestamp ≤ secs ∧ secs ≤ chronoMaxTimestamp then
    Except.ok secs
  else
    Except.error ()

/-- The compute-stage handler (src/main.rs:126-175) with every panic source
modeled.  Beyond the three `unwrap`s already in `StockDataProcessor.handle`,
this includes the `Utc.timestamp(ts as i64, 0)` conversion at src/main.rs:132
— a panic when the second count, after the wrapping `u64 -> i64` cast, is
outside chrono's representable range — and the
`Broker::from_registry().await.unwrap()` at src/main.rs:157, whose success is
an environment condition passed in as `registryOk`.  The emitted record keeps
the same second-count idealization of the period-end instant as
`StockDataProcessor.handle`. -/
def StockDataProcessor.handleFull (registryOk : Bool) (msg : Quotes) :
    Except Unit (Option PerformanceIndicators) :=
  if msg.quotes = [] then
    Except.ok none
  else
    let data := sortByTimestamp msg.quotes
    match data.getLast? with
    | none => Except.error ()
    | some lastQuote =>
      match Utc.timestamp (u64_as_i64 lastQuote.timestamp) with
      | Except.error _ => Except.error ()
      | Except.ok _last_date =>
        let closes := data.map Quote.close
        let period_max := (MaxPrice.calculate closes).getD 0
        let period_min := (MinPrice.calculate closes).getD 0
        match closes.getLast? with
        | none => Except.error ()
        | some last_price =>
          let pct_change := ((PriceDifference.calculate closes).getD (0, 0)).2
          match WindowedSMA.calculate 30 closes with
          | none => Except.error ()
          | some sma =>
            if registryOk then
              Except.ok (some {
                symbol := msg.symbol
                timestamp := lastQuote.timestamp
                price := last_price
                pct_change := pct_change
                period_min := period_min
                period_max := period_max
                last_sma := sma.getLast?.getD 0 })
            else
              Except.error ()

/-- Counterexample to C10 as stated: the handler does not avoid panics on
every input.  A single quote with timestamp `10^15` seconds (a valid `u64`,
unchanged by the `as i64` cast, but beyond chrono's greatest representable
instant) drives `Utc.timestamp` at src/main.rs:132 into its out-of-range
panic, even though the quotes list is non-empty and the broker registry is
available. -/
theorem processor_no_panic_counterexample :
    StockDataProcessor.handleFull true
      { symbol := "T", quotes := [{ timestamp := 1000000000000000, close := 5 }] } =
      Except.error () := by
  rfl

/-- C10 (amended): the three `unwrap`s named in the claim are indeed safe —
the closes column has the length of the quotes list and
`WindowedSMA(30).calculate` is `some` on every non-empty series — but the
handler is only panic-free on inputs all of whose quote timestamps, after
the wrapping `u64 -> i64` cast, are representable chrono instants, and when
the broker-registry lookup of src/main.rs:157 succeeds. -/
theorem processor_panic_scope (q : Quotes)
    (hts : ∀ qu ∈ q.quotes,
      chronoMinTimestamp ≤ u64_as_i64 qu.timestamp ∧
      u64_as_i64 qu.timestamp ≤ chronoMaxTimestamp) :
    ((sortByTimestamp q.quotes).map Quote.close).length = q.quotes.length ∧
    (q.quotes ≠ [] →
      WindowedSMA.calculate 30 ((sortByTimestamp q.quotes).map Quote.close) ≠ none) ∧
    ∃ res : Option PerformanceIndicators,
      StockDataProcessor.handleFull true q = Except.ok res := by
  refine ⟨?_, ?_, ?_⟩
  · simp [sortByTimestamp, List.length_insertionSort]
  · intro hne
    have hcloses : (sortByTimestamp q.quotes).map Quote.close ≠ [] := by
      simpa using sortByTimestamp_ne_nil hne
    unfold WindowedSMA.calculate
    rw [if_pos ⟨hcloses, by norm_num⟩]
    simp
  · by_cases hne : q.quotes = []
    · refine ⟨none, ?_⟩
      unfold StockDataProcessor.handleFull
      rw [if_pos hne]
    · have hdata : sortByTimestamp q.quotes ≠ [] := sortByTimestamp_ne_nil hne
      have hcloses : (sortByTimestamp q.quotes).map Quote.close ≠ [] := by
        simpa using hdata
      have hlast : (sortByTimestamp q.quotes).getLast? =
          some ((sortByTimestamp q.quotes).getLast hdata) :=
        List.getLast?_eq_getLast_of_ne_nil hdata
      have hmem : (sortByTimestamp q.quotes).getLast hdata ∈ q.quotes := by
        have h1 := List.getLast_mem hdata
        unfold sortByTimestamp at h1
        exact (List.perm_insertionSort (fun a b => a.timestamp ≤ b.timestamp)
          q.quotes).mem_iff.mp h1
      have hutc : Utc.timestamp
          (u64_as_i64 ((sortByTimestamp q.quotes).getLast hdata).timestamp) =
          Except.ok (u64_as_i64 ((sortByTimestamp q.quotes).getLast hdata).timestamp) := by
        unfold Utc.timestamp
        rw [if_pos (hts _ hmem)]
      have hlastclose : ((sortByTimestamp q.quotes).map Quote.close).getLast? =
          some (((sortByTimestamp q.quotes).map Quote.close).getLast hcloses) :=
        List.getLast?_eq_getLast_of_ne_nil hcloses
      have hsma : WindowedSMA.calculate 30 ((sortByTimestamp q.quotes).map Quote.close) =
          some ((slice.windows 30 ((sortByTimestamp q.quotes).map Quote.close)).map
            (fun v => v.sum / (v.length : ℚ))) := by
        unfold WindowedSMA.calculate
        rw [if_pos ⟨hcloses, by norm_num⟩]
      have heq : StockDataProcessor.handleFull true q =
          Except.ok (some {
            symbol := q.symbol
            timestamp := ((sortByTimestamp q.quotes).getLast hdata).timestamp
            price := ((sortByTimestamp q.quotes).map Quote.close).getLast hcloses
            pct_change := ((PriceDifference.calculate
              ((sortByTimestamp q.quotes).map Quote.close)).getD (0, 0)).2
            period_min := (MinPrice.calculate
              ((sortByTimestamp q.quotes).map Quote.close)).getD 0
            period_max := (MaxPrice.calculate
              ((sortByTimestamp q.quotes).map Quote.close)).getD 0
            last_sma := ((slice.windows 30
              ((sortByTimestamp q.quotes).map Quote.close)).map
                (fun v => v.sum / (v.length : ℚ))).getLast?.getD 0 }) := by
        unfold StockDataProcessor.handleFull
        rw [if_neg hne]
        simp only [hlast, hutc, hlastclose, hsma, if_true]
      exact ⟨_, heq⟩

/-- Witness for C10 (amended): a quote with a small, representable timestamp
satisfies the range hypothesis and the handler completes without a panic. -/
theorem processor_panic_scope_witness :
    (∀ qu ∈ ({ symbol := "T", quotes := [⟨2, 5⟩] } : Quotes).quotes,
      chronoMinTimestamp ≤ u64_as_i64 qu.timestamp ∧
      u64_as_i64 qu.timestamp ≤ chronoMaxTimestamp) ∧
    ∃ res : Option PerformanceIndicators,
      StockDataProcessor.handleFull true { symbol := "T", quotes := [⟨2, 5⟩] } =
        Except.ok res := by
  have hts : ∀ qu ∈ ({ symbol := "T", quotes := [⟨2, 5⟩] } : Quotes).quotes,
      chronoMinTimestamp ≤ u64_as_i64 qu.timestamp ∧
      u64_as_i64 qu.timestamp ≤ chronoMaxTimestamp := by
    intro qu hqu
    simp only [List.mem_singleton] at hqu
    subst hqu
    constructor <;> norm_num [u64_as_i64, chronoMinTimestamp, chronoMaxTimestamp]
  exact ⟨hts,
    (processor_panic_scope { symbol := "T", quotes := [⟨2, 5⟩] } hts).2.2⟩

/-! ## Fetch stage: `Handler<QuoteRequest> for StockDataDownloader`
(src/main.rs:76-110) -/

/-- The fetch-stage handler.  The provider call is an external collaborator;
its outcome is passed in: the outer `Except` is the result of
`provider.get_quote_history(...)`, the inner one the result of
`response.quotes()`.  The handler is total: it always builds exactly one
`Quotes` value and publishes it (a failed publish is only logged,
src/main.rs:106-108). -/
def StockDataDownloader.handle (symbol : String)
    (providerResult : Except String (Except String (List Quote))) : Quotes :=
  match providerResult with
  | Except.ok response =>
    match response with
    | Except.ok quotes => { symbol := symbol, quotes := quotes }
    | Except.error _ => { symbol := symbol, quotes := [] }
  | Except.error _ => { symbol := symbol, quotes := [] }

/-! ## Claim C8: fetch-stage error recovery -/

/-- C8: for every `QuoteRequest`, the fetch stage publishes exactly one
`Quotes` value (the handler is total and returns one result for every
provider outcome, carrying the requested symbol); when the provider call or
the decoding of its response fails, the published series is empty, so no
error value reaches the compute stage; on success the fetched series is
passed through unchanged. -/
theorem downloader_one_result_spec (symbol : String)
    (res : Except String (Except String (List Quote))) :
    (StockDataDownloader.handle symbol res).symbol = symbol ∧
    (∀ e, res = Except.error e →
      (StockDataDownloader.handle symbol res).quotes = []) ∧
    (∀ e, res = Except.ok (Except.error e) →
      (StockDataDownloader.handle symbol res).quotes = []) ∧
    (∀ qs, res = Except.ok (Except.ok qs) →
      (StockDataDownloader.handle symbol res).quotes = qs) := by
  refine ⟨?_, ?_, ?_, ?_⟩
  · cases res with
    | ok r => cases r <;> rfl
    | error e => rfl
  · rintro e rfl
    rfl
  · rintro e rfl
    rfl
  · rintro qs rfl
    rfl

/-- Witness for C8: a provider error yields the empty series; a successful
fetch passes the series through. -/
theorem downloader_one_result_spec_witness :
    (StockDataDownloader.handle "AAPL" (Except.error "api down")).quotes = [] ∧
    (StockDataDownloader.handle "AAPL"
      (Except.ok (Except.ok [⟨1, 2⟩]))).quotes = [⟨1, 2⟩] :=
  ⟨(downloader_one_result_spec "AAPL" (Except.error "api down")).2.1 "api down" rfl,
   (downloader_one_result_spec "AAPL"
     (Except.ok (Except.ok [⟨1, 2⟩]))).2.2.2 [⟨1, 2⟩] rfl⟩

/-! ## Scheduler loop (src/main.rs:274-288) -/

/-- The inner `for symbol in &symbols` loop of one scheduler tick.  `now` is
the tick's `Utc::now()`; `fromDate` is the fixed startup value; `ok k` says
whether the `k`-th publish attempt (numbered across the whole run) succeeds.
On the first failed publish the loop stops (`break 'outer`), the failed
request is not published.  Returns the published requests of the tick, the
next attempt number, and whether the tick completed without failure. -/
def scheduleTick (fromDate now : ℤ) (ok : ℕ → Bool) :
    ℕ → List String → List QuoteRequest × ℕ × Bool
  | k, [] => ([], k, true)
  | k, s :: rest =>
    if ok k then
      let p := scheduleTick fromDate now ok (k + 1) rest
      ({ symbol := s, fromDate := fromDate, toDate := now } :: p.1, p.2.1, p.2.2)
    else
      ([], k + 1, false)

/-- The `'outer: while interval.next().await.is_some()` loop
(src/main.rs:275-287) over a finite trace of tick times: each tick issues one
request per symbol with `to = now`; a tick that reports a publish failure
terminates the whole loop. -/
def schedulerRun (fromDate : ℤ) (symbols : List String) (ok : ℕ → Bool) :
    ℕ → List ℤ → List QuoteRequest
  | _, [] => []
  | k, now :: ticks =>
    let t := scheduleTick fromDate now ok k symbols
    if t.2.2 then t.1 ++ schedulerRun fromDate symbols ok t.2.1 ticks
    else t.1

/-- When every publish succeeds, one tick publishes exactly one request per
symbol, in symbol order, each with the fixed `fromDate` and the tick's `now`. -/
theorem scheduleTick_all_ok (fromDate now : ℤ) (ok : ℕ → Bool)
    (hok : ∀ n, ok n = true) :
    ∀ (symbols : List String) (k : ℕ),
      scheduleTick fromDate now ok k symbols =
        (symbols.map
          (fun s => { symbol := s, fromDate := fromDate, toDate := now }),
         k + symbols.length, true) := by
  intro symbols
  induction symbols with
  | nil => intro k; simp [scheduleTick]
  | cons s rest ih =>
    intro k
    simp only [scheduleTick, hok k, if_true, ih (k + 1), List.map_cons,
      List.length_cons]
    have harith : k + 1 + rest.length = k + (rest.length + 1) := by omega
    rw [harith]

/-! ## Claim C9: scheduler behaviour -/

/-- C9: if every publish succeeds, a run over tick times `ticks` publishes,
for each tick in order, one `QuoteRequest` per configured symbol with
`to` = that tick's time and `from` = the fixed startup value; and as soon as
one tick's publishing fails, the loop terminates — the run over `now :: ticks`
publishes only that tick's successful prefix and nothing from later ticks. -/
theorem scheduler_spec (fromDate : ℤ) (symbols : List String) (ok : ℕ → Bool) :
    ((∀ n, ok n = true) → ∀ (k : ℕ) (ticks : List ℤ),
      schedulerRun fromDate symbols ok k ticks =
        ticks.flatMap (fun now => symbols.map
          (fun s => { symbol := s, fromDate := fromDate, toDate := now }))) ∧
    (∀ (k : ℕ) (now : ℤ) (ticks : List ℤ),
      (scheduleTick fromDate now ok k symbols).2.2 = false →
      schedulerRun fromDate symbols ok k (now :: ticks) =
        (scheduleTick fromDate now ok k symbols).1) := by
  constructor
  · intro hok k ticks
    induction ticks generalizing k with
    | nil => simp [schedulerRun]
    | cons now ticks ih =>
      simp only [schedulerRun, scheduleTick_all_ok fromDate now ok hok symbols k,
        if_true, List.flatMap_cons]
      rw [ih (k + symbols.length)]
  · intro k now ticks hfail
    simp [schedulerRun, hfail]

/-- Witness for C9: with two symbols and two ticks every request is issued
with the tick's `now`; with a dead bus the run stops inside the first tick. -/
theorem scheduler_spec_witness :
    schedulerRun 0 ["AAPL", "MSFT"] (fun _ => true) 0 [5, 6] =
      [{ symbol := "AAPL", fromDate := 0, toDate := 5 },
       { symbol := "MSFT", fromDate := 0, toDate := 5 },
       { symbol := "AAPL", fromDate := 0, toDate := 6 },
       { symbol := "MSFT", fromDate := 0, toDate := 6 }] ∧
    schedulerRun 0 ["AAPL", "MSFT"] (fun _ => false) 0 [5, 6] = [] := by
  constructor
  · rw [(scheduler_spec 0 ["AAPL", "MSFT"] (fun _ => true)).1 (fun _ => rfl) 0 [5, 6]]
    rfl
  · rw [(scheduler_spec 0 ["AAPL", "MSFT"] (fun _ => false)).2 0 5 [6] rfl]
    rfl
